import Mathlib

/-!
Verification of the PyECS signature-based Entity-Component-System runtime.

The Python source (ecs/utils.py, ecs/generics.py) is shallowly embedded:
Python ints are `Nat` (arbitrary precision, as in Python) or `Int` where the
value may be negative (system priorities), Python dicts are insertion-ordered
association lists, Python `Queue` objects are FIFO lists, and operations that
can raise (`dict.pop` on a missing key, `list.remove` on a missing element)
return `Option`, with `none` standing for the raised exception.
-/

namespace PyECS

/-- Embeds `check_signature` from ecs/utils.py: `(signature & contains) == contains`. -/
def check_signature (signature contains : Nat) : Bool :=
  (signature &&& contains) == contains

/-- Embeds the loop body of `get_atomic_signatures` (ecs/utils.py):
`atom` starts at 1 and is shifted left until it exceeds `signature`;
every atom contained in `signature` is collected. The `0 < atom` guard is
an invariant of the Python loop (atom is always a power of two) recorded
here for termination. -/
def atoms_aux (signature : Nat) (atom : Nat) : List Nat :=
  if _h : 0 < atom ∧ atom ≤ signature then
    (if check_signature signature atom then [atom] else []) ++ atoms_aux signature (atom <<< 1)
  else []
  termination_by signature + 1 - atom
  decreasing_by
    simp only [Nat.shiftLeft_eq, Nat.pow_one]
    omega

/-- Embeds `get_atomic_signatures` from ecs/utils.py. -/
def get_atomic_signatures (signature : Nat) : List Nat :=
  atoms_aux signature 1

/-- A Python dict with `Nat` keys, as an insertion-ordered association list. -/
abbrev PyDict (α : Type) := List (Nat × α)

/-- Python `d[k]` read / `k in d` membership probe. -/
def dict_lookup {α : Type} (k : Nat) (d : PyDict α) : Option α :=
  (d.find? (fun p => p.1 == k)).map (·.2)

/-- Python `d[k] = v`: updates the entry in place when the key is present,
otherwise appends (dicts preserve insertion order). -/
def dict_set {α : Type} (k : Nat) (v : α) (d : PyDict α) : PyDict α :=
  if d.any (fun p => p.1 == k) then d.map (fun p => if p.1 == k then (k, v) else p)
  else d ++ [(k, v)]

/-- Python `d.pop(k)`: removes the entry; `none` models the `KeyError`
raised when the key is absent. -/
def dict_pop {α : Type} (k : Nat) (d : PyDict α) : Option (PyDict α) :=
  if d.any (fun p => p.1 == k) then some (d.filter (fun p => p.1 != k)) else none

/-- Python `del d[k]` for a key known to be present. -/
def dict_del {α : Type} (k : Nat) (d : PyDict α) : PyDict α :=
  d.filter (fun p => p.1 != k)

/-- Embeds `Component` (ecs/generics.py): a component instance carries the
`SIGNATURE` bit(s) of its kind; `cid` models Python object identity, which
is what `list.remove` compares by for components. The `owner` back-reference
carries no information used by any claim and is omitted. -/
structure Component where
  cid : Nat
  sig : Nat
deriving DecidableEq, Repr

/-- Embeds `Entity` (ecs/generics.py): monotonically assigned id, cached
signature, idempotence flag for deletion, insertion-ordered component list. -/
structure Entity where
  id : Nat
  signature : Nat
  removed : Bool
  components : List Component
deriving DecidableEq, Repr

/-- Embeds `Entity.__init__`: signature 0, not removed, no components;
the id is drawn from `ENTITY_ID_MANAGER`, passed here explicitly. -/
def entity_init (i : Nat) : Entity :=
  { id := i, signature := 0, removed := false, components := [] }

/-- Embeds `CachedCollection` (ecs/utils.py), specialised to the `Entity`
payload used by `EntityCollection`: the authoritative id-to-object dict,
`last_added_id`, the filter cache, and the dirty-signature accumulator
`_affected_signatures_since_last_clear`. -/
structure CachedCollection where
  objects : PyDict Entity
  last_added_id : Nat
  filter_cache : PyDict (List Entity)
  affected : Nat
deriving Repr

/-- Embeds `CachedCollection.__init__`. -/
def cc_init : CachedCollection :=
  { objects := [], last_added_id := 0, filter_cache := [], affected := 0 }

/-- Embeds `Collection.filter_by_signature`: the from-scratch linear scan over
the live objects, in dict iteration (= insertion) order. -/
def collection_filter_by_signature (objects : PyDict Entity) (signature : Nat) : List Entity :=
  (objects.filter (fun p => check_signature p.2.signature signature)).map (·.2)

/-- Embeds `CachedCollection.add`: ORs the object's signature into the dirty
accumulator, then `Collection.add` stores it under its id. -/
def cc_add (c : CachedCollection) (obj : Entity) : CachedCollection :=
  { c with
    affected := c.affected ||| obj.signature
    last_added_id := obj.id
    objects := dict_set obj.id obj c.objects }

/-- Embeds `CachedCollection.delete`: ORs the object's signature into the dirty
accumulator, then `Collection.delete` pops its id; `none` is the `KeyError`
raised when the id is not in the collection. -/
def cc_delete (c : CachedCollection) (obj : Entity) : Option CachedCollection :=
  (dict_pop obj.id c.objects).map fun o =>
    { c with affected := c.affected ||| obj.signature, objects := o }

/-- Embeds `CachedCollection.filter_by_signature`: returns the cached list
when present, otherwise performs the linear scan and caches it. The pair is
(returned list, collection after the call). -/
def cc_filter_by_signature (c : CachedCollection) (signature : Nat) :
    List Entity × CachedCollection :=
  match dict_lookup signature c.filter_cache with
  | some cached => (cached, c)
  | none =>
    let result := collection_filter_by_signature c.objects signature
    (result, { c with filter_cache := c.filter_cache ++ [(signature, result)] })

/-- The loop body of `CachedCollection.clear_cache`: `if signature in
self._filter_cache: del self._filter_cache[signature]`. -/
def clear_step (cache : PyDict (List Entity)) (signature : Nat) : PyDict (List Entity) :=
  if cache.any (fun p => p.1 == signature) then dict_del signature cache else cache

/-- Embeds `CachedCollection.clear_cache`: drops the cache entry of every
atomic signature of the dirty accumulator (guarded by a membership test, as
in the source), then resets the accumulator. -/
def clear_cache (c : CachedCollection) : CachedCollection :=
  { c with
    filter_cache := (get_atomic_signatures c.affected).foldl clear_step c.filter_cache
    affected := 0 }

/-- An add or delete operation on a `CachedCollection` (claim C1's alphabet). -/
inductive CCOp where
  | add (e : Entity)
  | del (e : Entity)
deriving Repr

/-- The signature of the object an operation touches. -/
def CCOp.sig : CCOp → Nat
  | .add e => e.signature
  | .del e => e.signature

/-- Runs a sequence of add/delete operations; `none` models an uncaught
`KeyError` from deleting an absent id. -/
def run_cc_ops : List CCOp → CachedCollection → Option CachedCollection
  | [], c => some c
  | .add e :: ops, c => run_cc_ops ops (cc_add c e)
  | .del e :: ops, c =>
    match cc_delete c e with
    | none => none
    | some c' => run_cc_ops ops c'

/-! Entity component operations (ecs/generics.py, class `Entity`). -/

/-- Embeds `Entity._calculate_signature`: OR-fold of the owned components'
`SIGNATURE` bits, starting from 0. -/
def calculate_signature (components : List Component) : Nat :=
  components.foldl (fun s c => s ||| c.sig) 0

/-- Embeds `Entity.add_component`: ORs the component's bits into the cached
signature and appends the component. -/
def add_component (e : Entity) (c : Component) : Entity :=
  { e with
    signature := e.signature ||| c.sig
    components := e.components ++ [c] }

/-- Python `list.remove(x)`: drops the first element equal to `x`; `none`
models the `ValueError` raised when no element matches. -/
def list_remove_first {α : Type} (p : α → Bool) : List α → Option (List α)
  | [] => none
  | x :: xs => if p x then some xs else (list_remove_first p xs).map (x :: ·)

/-- Embeds `Entity.remove_component`: removes the instance by identity, then
fully recomputes the signature from the remaining components. -/
def remove_component (e : Entity) (c : Component) : Option Entity :=
  (list_remove_first (· == c) e.components).map fun l =>
    { e with components := l, signature := calculate_signature l }

/-- Embeds `Entity.remove_components`: removes every listed instance, then
recomputes the signature once at the end. -/
def remove_components (e : Entity) (cs : List Component) : Option Entity :=
  (cs.foldlM (fun l c => list_remove_first (· == c) l) e.components).map fun l =>
    { e with components := l, signature := calculate_signature l }

/-- Embeds `Entity.has_component`: `check_signature(self.signature, kind_bits)`. -/
def has_component (e : Entity) (kind_bits : Nat) : Bool :=
  check_signature e.signature kind_bits

/-- Embeds `Entity.get_components_by_signature`: keeps the components whose
own bits are contained in the query signature, in insertion order. -/
def get_components_by_signature (e : Entity) (signature : Nat) : List Component :=
  e.components.filter (fun c => check_signature signature c.sig)

/-- Embeds `Entity.get_component_by_signature`: first match in insertion
order, `none` when no component matches. -/
def get_component_by_signature (e : Entity) (signature : Nat) : Option Component :=
  e.components.find? (fun c => check_signature signature c.sig)

/-- An operation on one entity's component list (claim C2's alphabet). -/
inductive EntityOp where
  | addC (c : Component)
  | remC (c : Component)
  | remCs (cs : List Component)

/-- Runs a sequence of component operations; `none` models an uncaught
`ValueError` from removing an absent component. -/
def run_entity_ops : List EntityOp → Entity → Option Entity
  | [], e => some e
  | .addC c :: ops, e => run_entity_ops ops (add_component e c)
  | .remC c :: ops, e =>
    match remove_component e c with
    | none => none
    | some e' => run_entity_ops ops e'
  | .remCs cs :: ops, e =>
    match remove_components e cs with
    | none => none
    | some e' => run_entity_ops ops e'

/-! Signals and systems (ecs/generics.py). -/

/-- Embeds `Signal`: the signal kind id `TYPE_ID`, the signature derived from
the involved entities, and the involved entities themselves. -/
structure Signal where
  type_id : Nat
  signature : Nat
  involved_entities : List Entity
deriving DecidableEq, Repr

/-- Embeds `Signal.__init__`: the signature is the OR of the involved
entities' signatures. -/
def signal_init (tid : Nat) (involved : List Entity) : Signal :=
  { type_id := tid
    signature := involved.foldl (fun s e => s ||| e.signature) 0
    involved_entities := involved }

/-- A handler category: the inner dict of `SIGNAL_HANDLERS`, mapping a
sub-signature to a handler; handlers are identified by an opaque tag since
only which handler is picked matters to the claims. -/
abbrev HandlerCategory := List (Nat × Nat)

/-- `SIGNAL_HANDLERS`: signal `TYPE_ID` to handler category. -/
abbrev SignalHandlers := List (Nat × HandlerCategory)

/-- Embeds a `System` instance: `sid` models Python object identity (used by
the `is not` test in `propagate_signal`), `priority` is the class `PRIORITY`,
`signals` is the inbox queue, and `ret_val` is the status its `update`
reports to the scene (the scene only inspects this value). -/
structure System where
  sid : Nat
  priority : Int
  enabled : Bool
  signal_handlers : SignalHandlers
  signals : List Signal
  ret_val : Int
deriving DecidableEq, Repr

/-- Outcome of `System._retrieve_handler`: the `KeyError` raised when the
signal id has no category, a registered handler, or `default_handler`. -/
inductive HandlerResult where
  | keyError
  | handler (tag : Nat)
  | defaultHandler
deriving DecidableEq, Repr

/-- Embeds `System._retrieve_handler`: indexes `SIGNAL_HANDLERS` by the
signal id (raising `KeyError` when absent, as the unguarded `[]` does), then
scans the category in insertion order for the first sub-signature contained
in the signal's signature, falling back to `default_handler`. -/
def retrieve_handler (signal_handlers : SignalHandlers) (signal_id signal_signature : Nat) :
    HandlerResult :=
  match dict_lookup signal_id signal_handlers with
  | none => .keyError
  | some handler_category =>
    match handler_category.find? (fun p => check_signature signal_signature p.1) with
    | some p => .handler p.2
    | none => .defaultHandler

/-! Scene (ecs/generics.py). -/

/-- Embeds `Scene`: the system list, the entity collection, and the two
pending queues (FIFO lists). -/
structure Scene where
  systems : List System
  entities : CachedCollection
  entities_to_add : List Entity
  entities_to_delete : List Entity
deriving Repr

/-- Embeds `Scene.propagate_signal`: every system that is not the sender and
whose `SIGNAL_HANDLERS` has a key equal to the signal's `TYPE_ID` gets the
signal appended to its inbox; the sender is identified by object identity. -/
def propagate_signal (systems : List System) (current_sid : Nat) (signal : Signal) :
    List System :=
  systems.map fun system =>
    if system.sid ≠ current_sid ∧ (dict_lookup signal.type_id system.signal_handlers).isSome
    then { system with signals := system.signals ++ [signal] }
    else system

/-- Embeds `Scene.add_entity`: enqueue only, no synchronous registry change. -/
def add_entity (st : Scene) (e : Entity) : Scene :=
  { st with entities_to_add := st.entities_to_add ++ [e] }

/-- Embeds `Scene.delete_entity`: a no-op when the entity is already marked
removed, otherwise enqueues it and sets the flag. The queue holds the same
object whose flag is set, so the enqueued value carries `removed := true`. -/
def delete_entity (st : Scene) (e : Entity) : Scene × Entity :=
  if e.removed then (st, e)
  else
    let e' := { e with removed := true }
    ({ st with entities_to_delete := st.entities_to_delete ++ [e'] }, e')

/-- Embeds `Scene._del_entities`: drains the pending-delete queue in FIFO
order; `none` models the `KeyError` from `Collection.delete` on an id that is
not in the registry. -/
def del_entities (c : CachedCollection) : List Entity → Option CachedCollection
  | [] => some c
  | e :: q =>
    match cc_delete c e with
    | none => none
    | some c' => del_entities c' q

/-- Embeds `Scene._add_entities`: drains the pending-add queue in FIFO order. -/
def add_entities (c : CachedCollection) : List Entity → CachedCollection
  | [] => c
  | e :: q => add_entities (cc_add c e) q

/-- Embeds `Scene.update`. Each system's `update` is modeled by the status it
reports (`ret_val`); the scene runs the enabled systems in list order and
returns 1 with no structural change as soon as one reports 1. Otherwise it
notes whether either pending queue is non-empty, drains deletes then adds,
and clears the filter cache only if a queue was non-empty. `none` models an
uncaught exception escaping the call. -/
def scene_update (st : Scene) : Option (Int × Scene) :=
  match st.systems.find? (fun system => system.enabled && (system.ret_val == 1)) with
  | some _ => some (1, st)
  | none =>
    let clear : Bool := !(st.entities_to_delete.isEmpty && st.entities_to_add.isEmpty)
    match del_entities st.entities st.entities_to_delete with
    | none => none
    | some c1 =>
      let c2 := add_entities c1 st.entities_to_add
      some (0, { st with
        entities := if clear then clear_cache c2 else c2
        entities_to_add := []
        entities_to_delete := [] })

/-! Signature allocation (ecs/utils.py, class `SignatureManager`). -/

/-- Embeds `SignatureManager`: the next signature to hand out. -/
structure SignatureManager where
  last_signature : Nat
deriving Repr

/-- Embeds `SignatureManager.__init__`: the first signature is 1. -/
def signature_manager_init : SignatureManager := { last_signature := 1 }

/-- Embeds `SignatureManager.next_signature`: returns the current value and
shifts the stored value left by one. Python integers are unbounded, so there
is no width check and no overflow. -/
def next_signature (m : SignatureManager) : Nat × SignatureManager :=
  (m.last_signature, { last_signature := m.last_signature <<< 1 })

/-- The manager state after `n` calls to `next_signature`. -/
def iter_signature_manager : Nat → SignatureManager
  | 0 => signature_manager_init
  | n + 1 => (next_signature (iter_signature_manager n)).2

/-! System-list maintenance (claim C7). The scene's `list.sort(key=PRIORITY)`
is a stable sort by priority; it is embedded as `List.insertionSort`, which
is stable. Each system is paired with an insertion tag, assigned
monotonically in the order systems are handed to `add_systems`, so that
"relative insertion order" is expressible. -/

/-- The sort key relation of `self._systems.sort(key=lambda s: s.PRIORITY)`. -/
def sys_le (a b : System × Nat) : Prop :=
  a.1.priority ≤ b.1.priority

instance : DecidableRel sys_le := fun a b => Int.decLe a.1.priority b.1.priority

instance : IsTotal (System × Nat) sys_le :=
  ⟨fun a b => Int.le_total a.1.priority b.1.priority⟩

instance : IsTrans (System × Nat) sys_le :=
  ⟨fun _ _ _ h1 h2 => le_trans h1 h2⟩

/-- Stable sort of the system list by priority. -/
def sort_systems (l : List (System × Nat)) : List (System × Nat) :=
  l.insertionSort sys_le

/-- Tags a batch of systems with consecutive insertion tags starting at `n`. -/
def tag_from (n : Nat) : List System → List (System × Nat)
  | [] => []
  | s :: ss => (s, n) :: tag_from (n + 1) ss

/-- The scene's system list with insertion tags, plus the next fresh tag. -/
structure SceneSystems where
  list : List (System × Nat)
  next_tag : Nat
deriving Repr

/-- A scene starts with no systems. -/
def scene_systems_init : SceneSystems := { list := [], next_tag := 0 }

/-- Embeds `Scene.add_systems`: appends the given systems (tagged in the
order given) and re-sorts by priority. -/
def add_systems (st : SceneSystems) (systems : List System) : SceneSystems :=
  { list := sort_systems (st.list ++ tag_from st.next_tag systems)
    next_tag := st.next_tag + systems.length }

/-- Embeds `Scene.delete_systems`: removes each given system (first
occurrence, by identity) and re-sorts; `none` models the `ValueError` from
`list.remove` on an absent system. -/
def delete_systems (st : SceneSystems) (systems : List System) : Option SceneSystems :=
  (systems.foldlM (fun l s => list_remove_first (fun p => p.1 == s) l) st.list).map fun l =>
    { st with list := sort_systems l }

/-- An operation on the scene's system list (claim C7's alphabet). -/
inductive SysOp where
  | addS (ss : List System)
  | delS (ss : List System)

/-- Runs a sequence of system-list operations. -/
def run_system_ops : List SysOp → SceneSystems → Option SceneSystems
  | [], st => some st
  | .addS ss :: ops, st => run_system_ops ops (add_systems st ss)
  | .delS ss :: ops, st =>
    match delete_systems st ss with
    | none => none
    | some st' => run_system_ops ops st'

/-- The stability relation for claim C7: systems of equal priority keep
ascending insertion tags. -/
def stable_before (a b : System × Nat) : Prop :=
  a.1.priority = b.1.priority → a.2 < b.2

/-- Invariant of the scene's system list: sorted by priority, equal
priorities in insertion order, and every tag below the next fresh tag. -/
def SceneSystemsInv (st : SceneSystems) : Prop :=
  st.list.Pairwise sys_le ∧ st.list.Pairwise stable_before ∧ ∀ p ∈ st.list, p.2 < st.next_tag

/-- A concrete receiver system used by concrete evaluations: disabled, with
a handler category declared for signal kind 5. -/
def witness_receiver : System :=
  { sid := 0, priority := 0, enabled := false, signal_handlers := [(5, [(0, 9)])], signals := [], ret_val := 0 }

/-- A concrete signal of kind 5 used by concrete evaluations. -/
def witness_signal : Signal :=
  { type_id := 5, signature := 3, involved_entities := [] }

/-! Supporting lemmas. -/

theorem check_signature_two_pow (a k : Nat) : check_signature a (2 ^ k) = a.testBit k := by
  unfold check_signature
  rw [Nat.and_two_pow]
  cases h : a.testBit k
  · simpa using (Nat.two_pow_pos k).ne
  · simp

theorem two_pow_mem_atoms_aux (a : Nat) :
    ∀ (d j : Nat), a.testBit (j + d) = true → 2 ^ (j + d) ∈ atoms_aux a (2 ^ j) := by
  intro d
  induction d with
  | zero =>
    intro j h
    simp only [Nat.add_zero] at h ⊢
    unfold atoms_aux
    rw [dif_pos ⟨Nat.two_pow_pos j, Nat.testBit_implies_ge h⟩]
    rw [if_pos ((check_signature_two_pow a j).trans h)]
    exact List.mem_append_left _ (List.mem_singleton_self _)
  | succ d ih =>
    intro j h
    have h' : a.testBit ((j + 1) + d) = true := by
      rwa [show (j + 1) + d = j + (d + 1) by omega]
    have hle : 2 ^ j ≤ a :=
      le_trans (Nat.pow_le_pow_right (by norm_num) (by omega)) (Nat.testBit_implies_ge h)
    unfold atoms_aux
    rw [dif_pos ⟨Nat.two_pow_pos j, hle⟩]
    refine List.mem_append_right _ ?_
    rw [show (2 ^ j) <<< 1 = 2 ^ (j + 1) by rw [Nat.shiftLeft_eq, pow_one, pow_succ]]
    have := ih (j + 1) h'
    rwa [show (j + 1) + d = j + (d + 1) by omega] at this

theorem mem_get_atomic_signatures {a k : Nat} (h : a.testBit k = true) :
    2 ^ k ∈ get_atomic_signatures a := by
  have := two_pow_mem_atoms_aux a k 0 (by simpa using h)
  simpa [get_atomic_signatures] using this

theorem dict_lookup_eq_none_iff {α : Type} (k : Nat) (d : PyDict α) :
    dict_lookup k d = none ↔ ∀ p ∈ d, p.1 ≠ k := by
  simp [dict_lookup, List.find?_eq_none]

theorem dict_lookup_filter_none {α : Type} (k : Nat) (d : PyDict α) (q : Nat × α → Bool)
    (h : dict_lookup k d = none) : dict_lookup k (d.filter q) = none := by
  rw [dict_lookup_eq_none_iff] at h ⊢
  intro p hp
  exact h p (List.mem_filter.mp hp).1

theorem dict_lookup_dict_del {α : Type} (k : Nat) (d : PyDict α) :
    dict_lookup k (dict_del k d) = none := by
  rw [dict_lookup_eq_none_iff]
  intro p hp
  have := (List.mem_filter.mp hp).2
  simpa using this

theorem dict_lookup_clear_step_self (cache : PyDict (List Entity)) (s : Nat) :
    dict_lookup s (clear_step cache s) = none := by
  unfold clear_step
  by_cases h : cache.any (fun p => p.1 == s) = true
  · rw [if_pos h]
    exact dict_lookup_dict_del s cache
  · rw [if_neg h]
    rw [dict_lookup_eq_none_iff]
    intro p hp hk
    exact h (List.any_eq_true.mpr ⟨p, hp, by simpa using hk⟩)

theorem dict_lookup_clear_step_none (cache : PyDict (List Entity)) (s s' : Nat)
    (h : dict_lookup s cache = none) : dict_lookup s (clear_step cache s') = none := by
  unfold clear_step
  split
  · simp only [dict_del]
    exact dict_lookup_filter_none _ _ _ h
  · exact h

theorem dict_lookup_clear_fold_none (s : Nat) :
    ∀ (l : List Nat) (cache : PyDict (List Entity)), dict_lookup s cache = none →
      dict_lookup s (l.foldl clear_step cache) = none
  | [], _, h => h
  | a :: l, cache, h =>
    dict_lookup_clear_fold_none s l _ (dict_lookup_clear_step_none cache s a h)

theorem dict_lookup_clear_fold_mem (s : Nat) :
    ∀ (l : List Nat) (cache : PyDict (List Entity)), s ∈ l →
      dict_lookup s (l.foldl clear_step cache) = none := by
  intro l
  induction l with
  | nil => intro cache h; cases h
  | cons a l ih =>
    intro cache h
    rcases List.mem_cons.mp h with rfl | h'
    · exact dict_lookup_clear_fold_none s l _ (dict_lookup_clear_step_self cache s)
    · exact ih _ h'

theorem run_cc_ops_affected_mono (k : Nat) :
    ∀ (ops : List CCOp) (c c' : CachedCollection), run_cc_ops ops c = some c' →
      c.affected.testBit k = true → c'.affected.testBit k = true := by
  intro ops
  induction ops with
  | nil =>
    intro c c' h hb
    simp only [run_cc_ops, Option.some.injEq] at h
    rw [← h]
    exact hb
  | cons op ops ih =>
    intro c c' h hb
    cases op with
    | add e =>
      exact ih _ _ h (by simp [cc_add, Nat.testBit_or, hb])
    | del e =>
      simp only [run_cc_ops] at h
      cases hd : cc_delete c e with
      | none => rw [hd] at h; cases h
      | some c1 =>
        rw [hd] at h
        apply ih _ _ h
        unfold cc_delete at hd
        cases hp : dict_pop e.id c.objects with
        | none => rw [hp] at hd; cases hd
        | some o =>
          rw [hp] at hd
          simp only [Option.map_some', Option.some.injEq] at hd
          rw [← hd]
          simp [Nat.testBit_or, hb]

theorem run_cc_ops_affected_of_op (k : Nat) :
    ∀ (ops : List CCOp) (c c' : CachedCollection) (op : CCOp), run_cc_ops ops c = some c' →
      op ∈ ops → op.sig.testBit k = true → c'.affected.testBit k = true := by
  intro ops
  induction ops with
  | nil => intro c c' op _ hmem; cases hmem
  | cons o ops ih =>
    intro c c' op h hmem hbit
    rcases List.mem_cons.mp hmem with rfl | h'
    · cases op with
      | add e =>
        exact run_cc_ops_affected_mono k ops _ _ h
          (by simp only [CCOp.sig] at hbit; simp [cc_add, Nat.testBit_or, hbit])
      | del e =>
        simp only [run_cc_ops] at h
        cases hd : cc_delete c e with
        | none => rw [hd] at h; cases h
        | some c1 =>
          rw [hd] at h
          apply run_cc_ops_affected_mono k ops _ _ h
          unfold cc_delete at hd
          cases hp : dict_pop e.id c.objects with
          | none => rw [hp] at hd; cases hd
          | some o =>
            rw [hp] at hd
            simp only [Option.map_some', Option.some.injEq] at hd
            rw [← hd]
            simp only [CCOp.sig] at hbit
            simp [Nat.testBit_or, hbit]
    · cases o with
      | add e => exact ih _ _ _ h h' hbit
      | del e =>
        simp only [run_cc_ops] at h
        cases hd : cc_delete c e with
        | none => rw [hd] at h; cases h
        | some c1 =>
          rw [hd] at h
          exact ih _ _ _ h h' hbit

/-! Claim C1. -/

/-- Claim C1: for every `CachedCollection` and every sequence of add/delete
operations followed by one `clear_cache` call, a subsequent
`filter_by_signature(S)` for every single-bit signature `S = 2 ^ k` that
occurs in the signature of some added or deleted object of that sequence
returns exactly the list produced by a from-scratch linear scan of the
currently live objects selecting those whose signature contains `S`. -/
theorem filter_correct_after_clear_cache (ops : List CCOp) (c c' : CachedCollection) (k : Nat)
    (hrun : run_cc_ops ops c = some c')
    (htouch : ∃ op ∈ ops, op.sig.testBit k = true) :
    (cc_filter_by_signature (clear_cache c') (2 ^ k)).1
      = collection_filter_by_signature c'.objects (2 ^ k) := by
  obtain ⟨op, hmem, hbit⟩ := htouch
  have haff := run_cc_ops_affected_of_op k ops c c' op hrun hmem hbit
  have hatom : 2 ^ k ∈ get_atomic_signatures c'.affected := mem_get_atomic_signatures haff
  have hnone : dict_lookup (2 ^ k) (clear_cache c').filter_cache = none :=
    dict_lookup_clear_fold_mem _ _ _ hatom
  unfold cc_filter_by_signature
  rw [hnone]
  rfl

theorem filter_correct_after_clear_cache_witness :
    (cc_filter_by_signature
        (clear_cache (cc_add cc_init { id := 0, signature := 1, removed := false, components := [] }))
        (2 ^ 0)).1
      = collection_filter_by_signature
          (cc_add cc_init { id := 0, signature := 1, removed := false, components := [] }).objects
          (2 ^ 0) :=
  filter_correct_after_clear_cache
    [CCOp.add { id := 0, signature := 1, removed := false, components := [] }] cc_init _ 0 rfl
    ⟨CCOp.add { id := 0, signature := 1, removed := false, components := [] },
      List.mem_singleton_self _, by decide⟩

/-! Supporting lemmas for entity components. -/

theorem calculate_signature_append (l : List Component) (c : Component) :
    calculate_signature (l ++ [c]) = calculate_signature l ||| c.sig := by
  simp [calculate_signature, List.foldl_append]

theorem run_entity_ops_signature_inv :
    ∀ (ops : List EntityOp) (e e' : Entity), run_entity_ops ops e = some e' →
      e.signature = calculate_signature e.components →
      e'.signature = calculate_signature e'.components := by
  intro ops
  induction ops with
  | nil =>
    intro e e' h he
    simp only [run_entity_ops, Option.some.injEq] at h
    rw [← h]
    exact he
  | cons op ops ih =>
    intro e e' h he
    cases op with
    | addC c =>
      apply ih _ _ h
      simp [add_component, calculate_signature_append, he]
    | remC c =>
      simp only [run_entity_ops] at h
      cases hr : remove_component e c with
      | none => rw [hr] at h; cases h
      | some e1 =>
        rw [hr] at h
        apply ih _ _ h
        unfold remove_component at hr
        cases hl : list_remove_first (· == c) e.components with
        | none => rw [hl] at hr; cases hr
        | some l =>
          rw [hl] at hr
          simp only [Option.map_some', Option.some.injEq] at hr
          rw [← hr]
    | remCs cs =>
      simp only [run_entity_ops] at h
      cases hr : remove_components e cs with
      | none => rw [hr] at h; cases h
      | some e1 =>
        rw [hr] at h
        apply ih _ _ h
        unfold remove_components at hr
        cases hl : cs.foldlM (fun l c => list_remove_first (· == c) l) e.components with
        | none => rw [hl] at hr; cases hr
        | some l =>
          rw [hl] at hr
          simp only [Option.map_some', Option.some.injEq] at hr
          rw [← hr]

/-! Claim C2. -/

/-- Claim C2: for every entity and after every sequence of `add_component`,
`remove_component`, and `remove_components` calls that completes without a
`ValueError`, the cached `signature` equals the OR of the `SIGNATURE` bits of
the components currently owned (0 for the empty list, as `calculate_signature`
folds from 0). -/
theorem entity_signature_invariant (i : Nat) (ops : List EntityOp) (e : Entity)
    (h : run_entity_ops ops (entity_init i) = some e) :
    e.signature = calculate_signature e.components :=
  run_entity_ops_signature_inv ops _ e h rfl

theorem entity_signature_invariant_witness :
    (add_component (entity_init 0) { cid := 0, sig := 3 }).signature
      = calculate_signature (add_component (entity_init 0) { cid := 0, sig := 3 }).components :=
  entity_signature_invariant 0 [EntityOp.addC { cid := 0, sig := 3 }] _ rfl

/-! Supporting lemmas for first-match queries and removal by identity. -/

theorem find?_append_none {α : Type} (p : α → Bool) :
    ∀ (l1 l2 : List α), l1.find? p = none → (l1 ++ l2).find? p = l2.find? p
  | [], _, _ => rfl
  | a :: l1, l2, h => by
    by_cases hpa : p a = true
    · rw [List.find?_cons_of_pos _ hpa] at h
      cases h
    · have hpa' : ¬p a = true := hpa
      rw [List.find?_cons_of_neg _ hpa'] at h
      rw [List.cons_append, List.find?_cons_of_neg _ hpa']
      exact find?_append_none p l1 l2 h

theorem list_remove_first_eq {α : Type} (p : α → Bool) :
    ∀ (l1 : List α) (x : α) (l2 : List α), (∀ y ∈ l1, p y = false) → p x = true →
      list_remove_first p (l1 ++ x :: l2) = some (l1 ++ l2)
  | [], x, l2, _, hx => by simp [list_remove_first, hx]
  | a :: l1, x, l2, h, hx => by
    have ha : p a = false := h a (List.mem_cons_self a l1)
    simp only [List.cons_append, list_remove_first, ha, Bool.false_eq_true, if_false,
      List.append_eq]
    rw [list_remove_first_eq p l1 x l2 (fun y hy => h y (List.mem_cons_of_mem a hy)) hx]
    rfl

theorem check_signature_self (s : Nat) : check_signature s s = true := by
  simp [check_signature, Nat.and_self]

theorem and_or_self_right (a b : Nat) : (a ||| b) &&& b = b := by
  apply Nat.eq_of_testBit_eq
  intro k
  simp only [Nat.testBit_and, Nat.testBit_or]
  cases b.testBit k <;> simp

theorem check_signature_or_self (a b : Nat) : check_signature (a ||| b) b = true := by
  simp [check_signature, and_or_self_right]

/-! Claim C8. -/

/-- Claim C8: an entity may hold two components of the same kind. After
adding `c1` then `c2` with the same `SIGNATURE` value `s` (distinct
instances), both are returned by `get_components_by_signature`,
`get_component_by_signature` returns the earliest-added matching instance,
and after `remove_component` of the second instance the recomputed signature
still contains `s`, so `has_component` stays true. -/
theorem duplicate_kind_components (e0 : Entity) (c1 c2 : Component) (s : Nat)
    (h1 : c1.sig = s) (h2 : c2.sig = s) (hne : c1 ≠ c2) (hnotin : c2 ∉ e0.components)
    (hnomatch : ∀ c ∈ e0.components, check_signature s c.sig = false) :
    let e2 := add_component (add_component e0 c1) c2
    c1 ∈ get_components_by_signature e2 s ∧
    c2 ∈ get_components_by_signature e2 s ∧
    get_component_by_signature e2 s = some c1 ∧
    ∃ e3, remove_component e2 c2 = some e3 ∧ has_component e3 s = true := by
  intro e2
  have hc1 : check_signature s c1.sig = true := by rw [h1]; exact check_signature_self s
  have hc2 : check_signature s c2.sig = true := by rw [h2]; exact check_signature_self s
  have hcomps : e2.components = e0.components ++ [c1] ++ [c2] := rfl
  refine ⟨?_, ?_, ?_, ?_⟩
  · unfold get_components_by_signature
    rw [hcomps]
    exact List.mem_filter.mpr ⟨by simp, hc1⟩
  · unfold get_components_by_signature
    rw [hcomps]
    exact List.mem_filter.mpr ⟨by simp, hc2⟩
  · unfold get_component_by_signature
    rw [hcomps, List.append_assoc]
    rw [find?_append_none _ _ _ (List.find?_eq_none.mpr (fun c hc => by simp [hnomatch c hc]))]
    exact List.find?_cons_of_pos _ hc1
  · have hrem : list_remove_first (· == c2) e2.components = some (e0.components ++ [c1]) := by
      rw [hcomps]
      have := list_remove_first_eq (· == c2) (e0.components ++ [c1]) c2 []
        (fun y hy => by
          rcases List.mem_append.mp hy with hy' | hy'
          · simp only [beq_eq_false_iff_ne, ne_eq]
            intro hcontra
            exact hnotin (hcontra ▸ hy')
          · simp only [List.mem_singleton] at hy'
            subst hy'
            simpa using hne)
        (by simp)
      simpa using this
    refine ⟨_, by unfold remove_component; rw [hrem]; rfl, ?_⟩
    unfold has_component
    simp only
    rw [calculate_signature_append, h1]
    exact check_signature_or_self _ s

theorem duplicate_kind_components_witness :
    let e2 := add_component (add_component (entity_init 0) { cid := 1, sig := 2 })
      { cid := 2, sig := 2 }
    { cid := 1, sig := 2 } ∈ get_components_by_signature e2 2 ∧
    { cid := 2, sig := 2 } ∈ get_components_by_signature e2 2 ∧
    get_component_by_signature e2 2 = some { cid := 1, sig := 2 } ∧
    ∃ e3, remove_component e2 { cid := 2, sig := 2 } = some e3 ∧ has_component e3 2 = true :=
  duplicate_kind_components (entity_init 0) { cid := 1, sig := 2 } { cid := 2, sig := 2 } 2
    rfl rfl (by decide) (by simp [entity_init]) (by simp [entity_init])

/-! Claim C3. -/

/-- Claim C3 counterexample: an empty `SIGNAL_HANDLERS` table has no category
for signal kind 0, yet `_retrieve_handler` raises `KeyError` on the unguarded
`self.SIGNAL_HANDLERS[signal_id]` access; it does not resolve to the no-op
default handler as the claim states for that case. -/
theorem retrieve_handler_no_category_counterexample :
    dict_lookup 0 ([] : SignalHandlers) = none ∧
      retrieve_handler [] 0 0 = HandlerResult.keyError ∧
      retrieve_handler [] 0 0 ≠ HandlerResult.defaultHandler := by
  refine ⟨rfl, rfl, ?_⟩
  decide

/-- Claim C3 (amended): when the table has a category for the signal's kind,
the first registered handler (category insertion order) whose sub-signature
is contained in the signal's signature is invoked, and if no registered
sub-signature matches, the no-op default handler is invoked; when the table
has no category for the signal's kind, `_retrieve_handler` raises `KeyError`
(this branch is unreachable through `propagate_signal`, which checks the key
before enqueueing). -/
theorem retrieve_handler_of_cat (signal_handlers : SignalHandlers) (sid ssig : Nat)
    (cat : HandlerCategory) (hcat : dict_lookup sid signal_handlers = some cat) :
    retrieve_handler signal_handlers sid ssig
      = match cat.find? (fun p => check_signature ssig p.1) with
        | some p => HandlerResult.handler p.2
        | none => HandlerResult.defaultHandler := by
  unfold retrieve_handler
  rw [hcat]

theorem retrieve_handler_resolution (signal_handlers : SignalHandlers) (sid ssig : Nat) :
    (dict_lookup sid signal_handlers = none →
      retrieve_handler signal_handlers sid ssig = HandlerResult.keyError) ∧
    (∀ cat, dict_lookup sid signal_handlers = some cat →
      ((∀ p ∈ cat, check_signature ssig p.1 = false) →
        retrieve_handler signal_handlers sid ssig = HandlerResult.defaultHandler) ∧
      (∀ (l1 : HandlerCategory) (sub tag : Nat) (l2 : HandlerCategory),
        cat = l1 ++ (sub, tag) :: l2 → check_signature ssig sub = true →
        (∀ p ∈ l1, check_signature ssig p.1 = false) →
        retrieve_handler signal_handlers sid ssig = HandlerResult.handler tag)) := by
  constructor
  · intro h
    unfold retrieve_handler
    rw [h]
  · intro cat hcat
    constructor
    · intro hall
      rw [retrieve_handler_of_cat _ _ _ _ hcat,
        List.find?_eq_none.mpr (fun p hp => by simp [hall p hp])]
    · intro l1 sub tag l2 hc hsub hl1
      rw [retrieve_handler_of_cat _ _ _ _ hcat, hc,
        find?_append_none _ _ _ (List.find?_eq_none.mpr (fun p hp => by simp [hl1 p hp]))]
      simp [List.find?, hsub]

theorem retrieve_handler_resolution_witness :
    retrieve_handler [(4, [(8, 11), (0, 12)])] 4 9 = HandlerResult.handler 11 :=
  ((retrieve_handler_resolution [(4, [(8, 11), (0, 12)])] 4 9).2 [(8, 11), (0, 12)] rfl).2
    [] 8 11 [(0, 12)] rfl (by decide) (by simp)

/-! Claim C4. -/

/-- Claim C4: for every scene whose enabled systems include one whose update
reports the termination sentinel 1, `Scene.update` returns 1 to the caller
and leaves the pending-add queue, pending-delete queue, entity registry and
filter cache unchanged: the returned scene is exactly the input scene, so no
structural mutation is applied in that call and the systems after the first
sentinel are never consulted. -/
theorem scene_update_sentinel_stops (st : Scene)
    (h : ∃ s ∈ st.systems, s.enabled = true ∧ s.ret_val = 1) :
    scene_update st = some (1, st) := by
  have hsome : (st.systems.find? (fun t => t.enabled && (t.ret_val == 1))).isSome := by
    rw [List.find?_isSome]
    obtain ⟨s, hs, h1, h2⟩ := h
    exact ⟨s, hs, by simp [h1, h2]⟩
  unfold scene_update
  cases hf : st.systems.find? (fun t => t.enabled && (t.ret_val == 1)) with
  | none => rw [hf] at hsome; cases hsome
  | some s => rfl

theorem scene_update_sentinel_stops_witness :
    scene_update
        { systems := [{ sid := 0, priority := 0, enabled := true, signal_handlers := [], signals := [], ret_val := 1 }],
          entities := cc_init, entities_to_add := [], entities_to_delete := [] }
      = some (1,
        { systems := [{ sid := 0, priority := 0, enabled := true, signal_handlers := [], signals := [], ret_val := 1 }],
          entities := cc_init, entities_to_add := [], entities_to_delete := [] }) :=
  scene_update_sentinel_stops
    { systems := [{ sid := 0, priority := 0, enabled := true, signal_handlers := [], signals := [], ret_val := 1 }],
      entities := cc_init, entities_to_add := [], entities_to_delete := [] }
    ⟨{ sid := 0, priority := 0, enabled := true, signal_handlers := [], signals := [], ret_val := 1 },
      List.mem_singleton_self _, rfl, rfl⟩

/-! Claim C5. -/

/-- Claim C5: `propagate_signal` enqueues the signal onto the inbox of
exactly those systems that are not the sender and whose `SIGNAL_HANDLERS`
table has a key equal to the signal's `TYPE_ID`; the sender never receives
its own signal, every other field of every system is untouched, and the
delivery condition involves neither the receiver's `enabled` flag nor the
signal's signature. -/
theorem propagate_signal_delivery (systems : List System) (sender : Nat) (sg : Signal)
    (i : Nat) (s : System) (h : systems[i]? = some s) :
    ∃ s', (propagate_signal systems sender sg)[i]? = some s' ∧
      s'.sid = s.sid ∧ s'.priority = s.priority ∧ s'.enabled = s.enabled ∧
      s'.signal_handlers = s.signal_handlers ∧ s'.ret_val = s.ret_val ∧
      (s.sid = sender → s' = s) ∧
      ((dict_lookup sg.type_id s.signal_handlers).isSome = false → s' = s) ∧
      (s.sid ≠ sender → (dict_lookup sg.type_id s.signal_handlers).isSome = true →
        s'.signals = s.signals ++ [sg]) := by
  have hmap : (propagate_signal systems sender sg)[i]?
      = some (if s.sid ≠ sender ∧ (dict_lookup sg.type_id s.signal_handlers).isSome
          then { s with signals := s.signals ++ [sg] } else s) := by
    unfold propagate_signal
    rw [List.getElem?_map, h]
    rfl
  refine ⟨_, hmap, ?_⟩
  by_cases hc : s.sid ≠ sender ∧ ((dict_lookup sg.type_id s.signal_handlers).isSome : Prop)
  · rw [if_pos hc]
    refine ⟨rfl, rfl, rfl, rfl, rfl, ?_, ?_, fun _ _ => rfl⟩
    · intro hsid
      exact absurd hsid hc.1
    · intro hnone
      rw [hc.2] at hnone
      cases hnone
  · rw [if_neg hc]
    refine ⟨rfl, rfl, rfl, rfl, rfl, fun _ => rfl, fun _ => rfl, ?_⟩
    intro hsid hsome
    exact absurd ⟨hsid, hsome⟩ hc

theorem propagate_signal_delivery_witness :
    ∃ s', (propagate_signal [witness_receiver] 1 witness_signal)[0]? = some s' ∧
      s'.sid = witness_receiver.sid ∧ s'.priority = witness_receiver.priority ∧
      s'.enabled = witness_receiver.enabled ∧
      s'.signal_handlers = witness_receiver.signal_handlers ∧
      s'.ret_val = witness_receiver.ret_val ∧
      (witness_receiver.sid = 1 → s' = witness_receiver) ∧
      ((dict_lookup witness_signal.type_id witness_receiver.signal_handlers).isSome = false →
        s' = witness_receiver) ∧
      (witness_receiver.sid ≠ 1 →
        (dict_lookup witness_signal.type_id witness_receiver.signal_handlers).isSome = true →
        s'.signals = witness_receiver.signals ++ [witness_signal]) :=
  propagate_signal_delivery [witness_receiver] 1 witness_signal 0 witness_receiver rfl

/-! Claim C6. -/

/-- Claim C6: `Scene.delete_entity` is idempotent. The first call (on a
not-yet-removed entity) enqueues the entity once and sets its removed flag;
calling it again on the resulting scene and entity changes nothing, so two
calls have the same observable effect as one. -/
theorem delete_entity_idempotent (st : Scene) (e : Entity) :
    delete_entity (delete_entity st e).1 (delete_entity st e).2 = delete_entity st e := by
  by_cases h : e.removed = true <;> simp [delete_entity, h]

/-! Supporting lemmas for the system list (claim C7). -/

theorem stable_of_not_le {x y : System × Nat} (h : ¬sys_le x y) : stable_before y x := by
  unfold sys_le at h
  unfold stable_before
  intro heq
  exfalso
  omega

theorem pairwise_orderedInsert {α : Type} (r : α → α → Prop) [DecidableRel r]
    (P : α → α → Prop) (hr : ∀ x y, ¬r x y → P y x) (a : α) :
    ∀ (l : List α), l.Pairwise P → (∀ b ∈ l, P a b) → (l.orderedInsert r a).Pairwise P := by
  intro l
  induction l with
  | nil =>
    intro _ _
    simp [List.orderedInsert]
  | cons b l ih =>
    intro hl ha
    rw [List.orderedInsert]
    by_cases hab : r a b
    · rw [if_pos hab]
      constructor
      · intro y hy
        rcases List.mem_cons.mp hy with hyb | hy'
        · rw [hyb]
          exact ha b (List.mem_cons_self _ _)
        · exact ha y (List.mem_cons_of_mem _ hy')
      · exact hl
    · rw [if_neg hab]
      rw [List.pairwise_cons] at hl ⊢
      constructor
      · intro y hy
        rcases (List.mem_orderedInsert r).mp hy with hya | hy'
        · rw [hya]
          exact hr a b hab
        · exact hl.1 y hy'
      · exact ih hl.2 (fun b' hb' => ha b' (List.mem_cons_of_mem _ hb'))

theorem pairwise_insertionSort {α : Type} (r : α → α → Prop) [DecidableRel r]
    (P : α → α → Prop) (hr : ∀ x y, ¬r x y → P y x) :
    ∀ (l : List α), l.Pairwise P → (l.insertionSort r).Pairwise P := by
  intro l
  induction l with
  | nil =>
    intro _
    simp [List.insertionSort]
  | cons a l ih =>
    intro hl
    rw [List.insertionSort]
    rw [List.pairwise_cons] at hl
    exact pairwise_orderedInsert r P hr a _ (ih hl.2)
      (fun b hb => hl.1 b ((List.mem_insertionSort r).mp hb))

theorem mem_tag_from : ∀ (ss : List System) (n : Nat) (p : System × Nat),
    p ∈ tag_from n ss → n ≤ p.2 ∧ p.2 < n + ss.length
  | [], _, p, h => by cases h
  | s :: ss, n, p, h => by
    rcases List.mem_cons.mp h with rfl | h'
    · simp
    · have := mem_tag_from ss (n + 1) p h'
      simp only [List.length_cons]
      omega

theorem pairwise_tag_from : ∀ (ss : List System) (n : Nat),
    (tag_from n ss).Pairwise (fun a b => a.2 < b.2)
  | [], _ => List.Pairwise.nil
  | s :: ss, n => by
    constructor
    · intro p hp
      have := (mem_tag_from ss (n + 1) p hp).1
      omega
    · exact pairwise_tag_from ss (n + 1)

theorem mem_sort_systems {l : List (System × Nat)} {p : System × Nat}
    (h : p ∈ sort_systems l) : p ∈ l :=
  (List.mem_insertionSort sys_le).mp h

theorem inv_add_systems (st : SceneSystems) (ss : List System) (h : SceneSystemsInv st) :
    SceneSystemsInv (add_systems st ss) := by
  obtain ⟨_, hstab, htag⟩ := h
  refine ⟨List.sorted_insertionSort sys_le _, ?_, ?_⟩
  · apply pairwise_insertionSort sys_le stable_before (fun x y hxy => stable_of_not_le hxy)
    rw [List.pairwise_append]
    refine ⟨hstab, ?_, ?_⟩
    · refine List.Pairwise.imp ?_ (pairwise_tag_from ss st.next_tag)
      intro a b hab
      exact fun _ => hab
    · intro a ha b hb _
      exact lt_of_lt_of_le (htag a ha) (mem_tag_from ss st.next_tag b hb).1
  · intro p hp
    show p.2 < st.next_tag + ss.length
    rcases List.mem_append.mp (mem_sort_systems hp) with h1 | h2
    · have := htag p h1
      omega
    · have := (mem_tag_from ss st.next_tag p h2).2
      omega

theorem list_remove_first_sublist {α : Type} (p : α → Bool) :
    ∀ (l l' : List α), list_remove_first p l = some l' → List.Sublist l' l
  | [], _, h => by cases h
  | x :: xs, l', h => by
    unfold list_remove_first at h
    by_cases hx : p x = true
    · rw [if_pos hx] at h
      cases h
      exact List.sublist_cons_self x xs
    · rw [if_neg hx] at h
      cases hr : list_remove_first p xs with
      | none => rw [hr] at h; cases h
      | some ys =>
        rw [hr] at h
        simp only [Option.map_some', Option.some.injEq] at h
        rw [← h]
        exact (list_remove_first_sublist p xs ys hr).cons₂ x

theorem foldlM_remove_sublist :
    ∀ (ss : List System) (l l' : List (System × Nat)),
      ss.foldlM (fun l s => list_remove_first (fun p => p.1 == s) l) l = some l' → List.Sublist l' l
  | [], l, l', h => by
    simp only [List.foldlM_nil] at h
    cases h
    exact List.Sublist.refl l
  | s :: ss, l, l', h => by
    simp only [List.foldlM_cons] at h
    cases hr : list_remove_first (fun p => p.1 == s) l with
    | none => rw [hr] at h; cases h
    | some l1 =>
      rw [hr] at h
      exact (foldlM_remove_sublist ss l1 l' h).trans (list_remove_first_sublist _ l l1 hr)

theorem inv_delete_systems (st st' : SceneSystems) (ss : List System)
    (h : delete_systems st ss = some st') (hinv : SceneSystemsInv st) :
    SceneSystemsInv st' := by
  obtain ⟨_, hstab, htag⟩ := hinv
  unfold delete_systems at h
  cases hr : ss.foldlM (fun l s => list_remove_first (fun p => p.1 == s) l) st.list with
  | none => rw [hr] at h; cases h
  | some l =>
    rw [hr] at h
    simp only [Option.map_some', Option.some.injEq] at h
    have hsub : List.Sublist l st.list := foldlM_remove_sublist ss st.list l hr
    rw [← h]
    refine ⟨List.sorted_insertionSort sys_le l, ?_, ?_⟩
    · exact pairwise_insertionSort sys_le stable_before (fun x y hxy => stable_of_not_le hxy)
        l (List.Pairwise.sublist hsub hstab)
    · intro p hp
      exact htag p (hsub.mem (mem_sort_systems hp))

theorem run_system_ops_inv :
    ∀ (ops : List SysOp) (st st' : SceneSystems),
      run_system_ops ops st = some st' → SceneSystemsInv st → SceneSystemsInv st' := by
  intro ops
  induction ops with
  | nil =>
    intro st st' h hinv
    simp only [run_system_ops, Option.some.injEq] at h
    rw [← h]
    exact hinv
  | cons op ops ih =>
    intro st st' h hinv
    cases op with
    | addS ss => exact ih _ _ h (inv_add_systems st ss hinv)
    | delS ss =>
      simp only [run_system_ops] at h
      cases hd : delete_systems st ss with
      | none => rw [hd] at h; cases h
      | some st1 =>
        rw [hd] at h
        exact ih _ _ h (inv_delete_systems st st1 ss hd hinv)

/-! Claim C7. -/

/-- Claim C7: after every sequence of `add_systems`/`delete_systems` calls
from an empty scene, the system list is sorted in ascending `PRIORITY`
order, and systems of equal priority keep their relative insertion order
(`stable_before`: ascending insertion tags, the tags being assigned in the
order systems were handed to `add_systems`). -/
theorem systems_sorted_and_stable (ops : List SysOp) (st : SceneSystems)
    (h : run_system_ops ops scene_systems_init = some st) :
    st.list.Pairwise sys_le ∧ st.list.Pairwise stable_before :=
  have hinv := run_system_ops_inv ops scene_systems_init st h
    ⟨List.Pairwise.nil, List.Pairwise.nil, by intro p hp; cases hp⟩
  ⟨hinv.1, hinv.2.1⟩

theorem systems_sorted_and_stable_witness :
    (add_systems scene_systems_init [witness_receiver]).list.Pairwise sys_le ∧
      (add_systems scene_systems_init [witness_receiver]).list.Pairwise stable_before :=
  systems_sorted_and_stable [SysOp.addS [witness_receiver]] _ rfl

/-! Claim C9. -/

/-- Claim C9 counterexample: with 64 signature bits already handed out, the
65th call to `next_signature` — the first request beyond a 64-bit integer
width — succeeds and returns `2 ^ 64`, a value that does not fit in 64 bits.
Registration neither fails fast nor wraps: Python integers are unbounded and
`next_signature` performs no width check. -/
theorem next_signature_no_capacity_check :
    (next_signature (iter_signature_manager 64)).1 = 2 ^ 64 ∧ 2 ^ 64 - 1 < 2 ^ 64 := by
  constructor
  · rfl
  · norm_num

/-- Claim C9 (amended): `next_signature` never fails and never wraps — the
(n+1)st call returns exactly `2 ^ n`, so requesting kinds beyond any fixed
width silently continues with ever-larger fresh powers of two instead of
failing fast at registration time. -/
theorem next_signature_returns_two_pow (n : Nat) :
    (next_signature (iter_signature_manager n)).1 = 2 ^ n := by
  induction n with
  | zero => rfl
  | succ n ih =>
    show (iter_signature_manager (n + 1)).last_signature = 2 ^ (n + 1)
    have : (iter_signature_manager (n + 1)).last_signature
        = (iter_signature_manager n).last_signature <<< 1 := rfl
    rw [this, Nat.shiftLeft_eq, pow_one]
    have ih' : (iter_signature_manager n).last_signature = 2 ^ n := ih
    rw [ih', pow_succ]

/-! Supporting lemmas for claim C10. -/

theorem dict_lookup_none_any_false {α : Type} (k : Nat) (d : PyDict α)
    (h : dict_lookup k d = none) : d.any (fun p => p.1 == k) = false := by
  rw [dict_lookup_eq_none_iff] at h
  rw [List.any_eq_false]
  intro p hp
  simp [h p hp]

theorem cc_delete_none (c : CachedCollection) (e : Entity)
    (h : dict_lookup e.id c.objects = none) : cc_delete c e = none := by
  unfold cc_delete dict_pop
  rw [if_neg (by simp [dict_lookup_none_any_false e.id c.objects h])]
  rfl

theorem cc_delete_preserves_absent (c c' : CachedCollection) (e x : Entity)
    (hd : cc_delete c x = some c') (h : dict_lookup e.id c.objects = none) :
    dict_lookup e.id c'.objects = none := by
  unfold cc_delete dict_pop at hd
  by_cases hx : c.objects.any (fun p => p.1 == x.id) = true
  · rw [if_pos hx] at hd
    simp only [Option.map_some', Option.some.injEq] at hd
    rw [← hd]
    exact dict_lookup_filter_none _ _ _ h
  · rw [if_neg hx] at hd
    cases hd

theorem del_entities_absent (e : Entity) :
    ∀ (q : List Entity) (c : CachedCollection), dict_lookup e.id c.objects = none →
      del_entities c (q ++ [e]) = none
  | [], c, h => by
    simp only [List.nil_append, del_entities, cc_delete_none c e h]
  | x :: q, c, h => by
    simp only [List.cons_append, del_entities]
    cases hd : cc_delete c x with
    | none => rfl
    | some c' => exact del_entities_absent e q c' (cc_delete_preserves_absent c c' e x hd h)

/-! Claim C10. -/

/-- Claim C10: for an entity `e` not present in the registry, calling
`add_entity e` and then `delete_entity e` within one frame makes the
end-of-frame apply in `Scene.update` raise: pending deletes are drained
before pending adds, and `Collection.delete` pops the entity's id with no
missing-key guard, so deleting the not-yet-added entity raises `KeyError`
(`none` here). The hypothesis on the systems only says no enabled system
reports the termination sentinel, so the apply phase is actually reached. -/
theorem add_then_delete_same_frame_raises (st : Scene) (e : Entity)
    (hnosent : ∀ t ∈ st.systems, ¬(t.enabled = true ∧ t.ret_val = 1))
    (hrm : e.removed = false)
    (habs : dict_lookup e.id st.entities.objects = none) :
    scene_update (delete_entity (add_entity st e) e).1 = none := by
  have hscene : (delete_entity (add_entity st e) e).1
      = { systems := st.systems, entities := st.entities,
          entities_to_add := st.entities_to_add ++ [e],
          entities_to_delete := st.entities_to_delete ++ [{ e with removed := true }] } := by
    simp [delete_entity, add_entity, hrm]
  rw [hscene]
  have hfind : st.systems.find? (fun t => t.enabled && (t.ret_val == 1)) = none :=
    List.find?_eq_none.mpr (fun t ht hb => by
      rw [Bool.and_eq_true, beq_iff_eq] at hb
      exact hnosent t ht hb)
  have hdel : del_entities st.entities
      (st.entities_to_delete ++ [{ e with removed := true }]) = none :=
    del_entities_absent { e with removed := true } st.entities_to_delete st.entities habs
  unfold scene_update
  dsimp only
  rw [hfind, hdel]

theorem add_then_delete_same_frame_raises_witness :
    scene_update (delete_entity
      (add_entity { systems := [], entities := cc_init, entities_to_add := [],
                    entities_to_delete := [] } (entity_init 5)) (entity_init 5)).1 = none :=
  add_then_delete_same_frame_raises
    { systems := [], entities := cc_init, entities_to_add := [], entities_to_delete := [] }
    (entity_init 5) (by simp) rfl rfl

end PyECS
